import Mathlib

/-!
Verification of the Sandspiel grid engine (`src/crate/src/lib.rs`).

The engine is embedded shallowly: `u8` fields become `Nat` (with explicit
`% 256` where the Rust code relies on wrapping), `i32` coordinates and
dimensions become `Int`, the flat buffers become `List`s, and the two
fallible neighborhood accessors (`SandApi::get` / `SandApi::set`, which
abort the call on an out-of-window offset) return `Option`.  The external
per-material update (`species.rs`, not part of the engine) is a parameter
of the tick driver.
-/

/-- Wrapping 8-bit subtraction, the release-mode semantics of `a - b` on `u8`. -/
def wsub (a b : Nat) : Nat := (a % 256 + 256 - b % 256) % 256

/-- Modelled from the spec: the material tags of the external `species` module.
`lib.rs` references exactly these variants; the per-material behaviour itself
is external to the engine and stays abstract (see `MaterialUpdate`). -/
inductive Species where
  | Empty
  | Wall
  | Cloner
  | Stone
  | Wood
  | Plant
  | Lava
  | Ice
  | Fungus
  | Oil
  | Water
  | Acid
  | Seed
  | Sand
  | Mite
  | Firework
  | Dust
  | Fire
  | Gas
deriving DecidableEq

/-- `Cell` from `lib.rs`: species tag, two free registers, clock byte. -/
structure Cell where
  species : Species
  ra : Nat
  rb : Nat
  clock : Nat
deriving DecidableEq

/-- `Wind` from `lib.rs`: four `u8` fields. -/
structure Wind where
  dx : Nat
  dy : Nat
  pressure : Nat
  density : Nat
deriving DecidableEq

def EMPTY_CELL : Cell := { species := Species.Empty, ra := 0, rb := 0, clock := 0 }

def zeroWind : Wind := { dx := 0, dy := 0, pressure := 0, density := 0 }

/-- `Universe` from `lib.rs`. -/
structure Universe where
  width : Int
  height : Int
  cells : List Cell
  undo_stack : List (List Cell)
  winds : List Wind
  burns : List Wind
  generation : Nat
deriving DecidableEq

/-- `get_index`: `(x + (y * self.width)) as usize`.  For the in-bounds
coordinates the engine uses, the cast is the identity; a negative value would
be an out-of-range index in Rust (a panic at the subsequent access), modelled
here by `toNat` together with the out-of-range behaviour of `getD`/`set`. -/
def Universe.get_index (u : Universe) (x y : Int) : Nat := (x + y * u.width).toNat

def Universe.get_cell (u : Universe) (x y : Int) : Cell :=
  u.cells.getD (u.get_index x y) EMPTY_CELL

def Universe.get_wind (u : Universe) (x y : Int) : Wind :=
  u.winds.getD (u.get_index x (u.height - y - 1)) zeroWind

namespace SandApi

/-- `SandApi::get`.  `none` models the `panic!` on an out-of-window offset. -/
def get (u : Universe) (x y dx dy : Int) : Option Cell :=
  if dx > 1 ∨ dx < -1 ∨ dy > 2 ∨ dy < -2 then none
  else if x + dx < 0 ∨ x + dx > u.width - 1 ∨ y + dy < 0 ∨ y + dy > u.height - 1 then
    some { species := Species.Wall, ra := 0, rb := 0, clock := u.generation }
  else some (u.get_cell (x + dx) (y + dy))

/-- `SandApi::set`.  `none` models the `panic!` on an out-of-window offset;
an in-window offset resolving off-grid is a silent no-op, and a successful
write forces `clock := generation + 1` (wrapping). -/
def set (u : Universe) (x y dx dy : Int) (v : Cell) : Option Universe :=
  if dx > 1 ∨ dx < -1 ∨ dy > 2 ∨ dy < -2 then none
  else if x + dx < 0 ∨ x + dx > u.width - 1 ∨ y + dy < 0 ∨ y + dy > u.height - 1 then
    some u
  else
    some { u with cells := u.cells.set (u.get_index (x + dx) (y + dy)) ({ v with clock := (u.generation + 1) % 256 }) }

/-- `SandApi::get_fluid`: reads the read wind buffer at the vertically
flipped index of the capability's own coordinate. -/
def get_fluid (u : Universe) (x y : Int) : Wind :=
  u.winds.getD (u.get_index x (u.height - (1 + y))) zeroWind

/-- `SandApi::set_fluid`: writes the write wind buffer at the vertically
flipped index of the capability's own coordinate. -/
def set_fluid (u : Universe) (x y : Int) (v : Wind) : Universe :=
  { u with burns := u.burns.set (u.get_index x (u.height - (1 + y))) v }

end SandApi

def demo3 : Universe :=
  { width := 3, height := 3
    cells := List.replicate 9 EMPTY_CELL
    undo_stack := []
    winds := List.replicate 9 zeroWind
    burns := List.replicate 9 zeroWind
    generation := 0 }

/-- `push_undo`: duplicate the grid to the stack front, truncate to 50. -/
def Universe.push_undo (u : Universe) : Universe :=
  { u with undo_stack := (u.cells :: u.undo_stack).take 50 }

/-- `pop_undo`: restore the front snapshot if present, else do nothing. -/
def Universe.pop_undo (u : Universe) : Universe :=
  match u.undo_stack with
  | [] => u
  | state :: rest => { u with cells := state, undo_stack := rest }

/-- `flush_undos`: clear the stack. -/
def Universe.flush_undos (u : Universe) : Universe := { u with undo_stack := [] }

def demo1 : Universe :=
  { width := 1, height := 1
    cells := [EMPTY_CELL]
    undo_stack := []
    winds := [zeroWind]
    burns := [zeroWind]
    generation := 0 }

def pushCell (i : Nat) : Cell := { species := Species.Sand, ra := i, rb := 0, clock := 0 }

/-- Sixty engine rounds on a 1×1 grid: write a distinguishable cell through
the capability, then snapshot it. -/
def pushDemo : Nat → Option Universe
  | 0 => some demo1
  | n + 1 =>
    match pushDemo n with
    | none => none
    | some u => (SandApi.set u 0 0 0 0 (pushCell (n + 1))).map Universe.push_undo

/-- The per-material wind threshold table of `blow_wind`; `Water` and `Acid`
are intentionally covered by the default arm, preserving the legacy value 40. -/
def windThreshold : Species → Int
  | Species.Empty => 500
  | Species.Wall => 500
  | Species.Cloner => 500
  | Species.Stone => 70
  | Species.Wood => 70
  | Species.Plant => 60
  | Species.Lava => 60
  | Species.Ice => 60
  | Species.Fungus => 54
  | Species.Oil => 50
  | Species.Seed => 35
  | Species.Sand => 30
  | Species.Mite => 30
  | Species.Firework => 30
  | Species.Dust => 10
  | Species.Fire => 5
  | Species.Gas => 5
  | _ => 40

/-- The granular/fluid materials whose upward wind hop extends to two cells. -/
def isUpwardMobile : Species → Bool
  | Species.Sand => true
  | Species.Water => true
  | Species.Lava => true
  | Species.Acid => true
  | Species.Mite => true
  | Species.Dust => true
  | Species.Oil => true
  | Species.Firework => true
  | _ => false

/-- Net effect of the two sequential `if`s assigning `dx` in `blow_wind`
(`dx = 1` when `wx > threshold`, then overwritten by `dx = -1` when
`wx < -threshold`; the last write wins). -/
def windDirX (wx threshold : Int) : Int :=
  if wx < -threshold then -1 else if wx > threshold then 1 else 0

/-- Net effect of the two sequential `if`s assigning `dy` in `blow_wind`. -/
def windDirY (wy threshold : Int) : Int :=
  if wy < -threshold then 1 else if wy > threshold then -1 else 0

/-- The move part of `blow_wind`, after `dx`/`dy` have been computed. -/
def blow_wind_move (cell : Cell) (u : Universe) (x y dx dy : Int) : Option Universe :=
  if dx = 0 ∧ dy = 0 then some u
  else
    match SandApi.get u x y dx dy with
    | none => none
    | some target =>
      if target.species = Species.Empty then
        match SandApi.set u x y 0 0 EMPTY_CELL with
        | none => none
        | some u1 =>
          if dy = -1 then
            match SandApi.get u1 x y dx (-2) with
            | none => none
            | some two =>
              if two.species = Species.Empty ∧ isUpwardMobile cell.species = true then
                SandApi.set u1 x y dx (-2) cell
              else SandApi.set u1 x y dx dy cell
          else SandApi.set u1 x y dx dy cell
      else some u

/-- `Universe::blow_wind`: the phase-A wind-transport step for one cell. -/
def blow_wind (cell : Cell) (wind : Wind) (u : Universe) (x y : Int) : Option Universe :=
  if wsub cell.clock u.generation = 1 then some u
  else if cell.species = Species.Empty then some u
  else
    blow_wind_move cell u x y
      (windDirX ((wind.dx : Int) - 126) (windThreshold cell.species))
      (windDirY ((wind.dy : Int) - 126) (windThreshold cell.species))

/-- The external per-material update: `species.rs` is not part of the engine;
its effect on the universe (through the capability) is kept abstract. -/
abbrev MaterialUpdate := Cell → Int → Int → Universe → Universe

/-- `Universe::update_cell`: the phase-B step guard around the material update. -/
def update_cell (upd : MaterialUpdate) (cell : Cell) (u : Universe) (x y : Int) : Universe :=
  if wsub cell.clock u.generation = 1 then u else upd cell x y u

/-- One phase-A visit: read the cell and its wind from the live state, then
apply `blow_wind`. -/
def stepA (u : Universe) (x y : Int) : Option Universe :=
  blow_wind (u.get_cell x y) (u.get_wind x y) u x y

def runVisitsA : Universe → List (Int × Int) → Option Universe
  | u, [] => some u
  | u, p :: rest =>
    match stepA u p.1 p.2 with
    | none => none
    | some v => runVisitsA v rest

/-- Phase-A visit order: `x` outer ascending, `y` inner ascending.  Nothing in
phase A can change the dimensions, so the loop bounds are precomputed. -/
def phaseAVisits (w h : Int) : List (Int × Int) :=
  (List.range w.toNat).flatMap (fun x => (List.range h.toNat).map (fun y => ((x : Int), (y : Int))))

/-- One phase-B visit: zero the write-wind slot at the flipped index, then run
the guarded material update. -/
def stepB (upd : MaterialUpdate) (u : Universe) (scanx y : Int) : Universe :=
  update_cell upd (u.get_cell scanx y)
    { u with burns := u.burns.set (u.get_index scanx (u.height - (1 + y))) zeroWind } scanx y

/-- Phase B: `x` outer over `0..width`, `scanx` computed from the live
generation parity at each row start, `y` inner over the live height. -/
def phaseB (upd : MaterialUpdate) (u0 : Universe) : Universe :=
  (List.range u0.width.toNat).foldl
    (fun u x =>
      (List.range u.height.toNat).foldl
        (fun v y => stepB upd v (if u.generation % 2 = 0 then u.width - (1 + (x : Int)) else (x : Int)) (y : Int))
        u)
    u0

/-- `Universe::tick`: phase A, generation + 1, phase B, generation + 1. -/
def tick (upd : MaterialUpdate) (u : Universe) : Option Universe :=
  match runVisitsA u (phaseAVisits u.width u.height) with
  | none => none
  | some ua =>
    some { phaseB upd { ua with generation := (ua.generation + 1) % 256 } with
           generation := ((phaseB upd { ua with generation := (ua.generation + 1) % 256 }).generation + 1) % 256 }

def tickN (upd : MaterialUpdate) : Nat → Universe → Option Universe
  | 0, u => some u
  | n + 1, u =>
    match tick upd u with
    | none => none
    | some v => tickN upd n v

/-- The x-scan order of phase B at a given generation parity. -/
def xOrder (w : Int) (g : Nat) : List Int :=
  (List.range w.toNat).map (fun x => if g % 2 = 0 then w - (1 + (x : Int)) else (x : Int))

/-- The full phase-B visit order (each scan column in full, `y` ascending). -/
def phaseBVisits (w h : Int) (g : Nat) : List (Int × Int) :=
  (xOrder w g).flatMap (fun sx => (List.range h.toNat).map (fun y => (sx, (y : Int))))

/-- The engine's contract for the external material capability: it acts only
through `SandApi`, which cannot change the dimensions, the generation, or the
read wind buffer. -/
def updPreserves (upd : MaterialUpdate) : Prop :=
  ∀ c x y v, (upd c x y v).width = v.width ∧ (upd c x y v).height = v.height ∧
    (upd c x y v).generation = v.generation ∧ (upd c x y v).winds = v.winds

/-- Everything `blow_wind` can leave unchanged: all fields but the cell
contents, and the cell count. -/
def sameShape (u v : Universe) : Prop :=
  v.width = u.width ∧ v.height = u.height ∧ v.winds = u.winds ∧ v.burns = u.burns ∧
  v.undo_stack = u.undo_stack ∧ v.generation = u.generation ∧ v.cells.length = u.cells.length

/-- `a..b` as a list of `Int`, the iteration space of the Rust range loops. -/
def intRange (a b : Int) : List Int :=
  (List.range (b - a).toNat).map (fun (k : Nat) => a + (k : Int))

/-- The `ra` computed by `paint`: `80 + (random()*30.) as u8 + ((gen%127) as i8 - 60).abs() as u8`.
The random draw is abstracted as an oracle value, reduced `% 30` to the range
of `(random()*30.) as u8`. -/
def paintRa (gen rv : Nat) : Nat :=
  80 + rv % 30 + (((gen % 127 : Nat) : Int) - 60).natAbs

/-- One iteration of the `paint` double loop at offset `(dx, dy)`. -/
def paintStep (x y radius : Int) (m : Species) (rnd : Int → Int → Nat)
    (v : Universe) (dx dy : Int) : Universe :=
  if dx * dx + dy * dy > radius * radius - 1 then v
  else if x + dx < 0 ∨ x + dx > v.width - 1 ∨ y + dy < 0 ∨ y + dy > v.height - 1 then v
  else if (v.get_cell (x + dx) (y + dy)).species = Species.Empty ∨ m = Species.Empty then
    { v with cells := v.cells.set (v.get_index (x + dx) (y + dy)) ({ species := m, ra := paintRa v.generation (rnd dx dy), rb := 0, clock := v.generation }) }
  else v

/-- The inner (`dy`) loop of `paint` for a fixed `dx`. -/
def paintCols (x y radius : Int) (m : Species) (rnd : Int → Int → Nat)
    (dx : Int) (v : Universe) (ds : List Int) : Universe :=
  ds.foldl (fun vv dy => paintStep x y radius m rnd vv dx dy) v

/-- The outer (`dx`) loop of `paint`. -/
def paintRows (x y radius : Int) (m : Species) (rnd : Int → Int → Nat)
    (v : Universe) (ds : List Int) : Universe :=
  ds.foldl (fun vv dx => paintCols x y radius m rnd dx vv (intRange (-radius) (radius + 1))) v

/-- `Universe::paint`: stamp a disc of the requested material.  `size / 2` is
Rust `i32` division, which truncates toward zero (`Int.tdiv`). -/
def Universe.paint (u : Universe) (x y size : Int) (m : Species) (rnd : Int → Int → Nat) : Universe :=
  paintRows x y (Int.tdiv size 2) m rnd u (intRange (-(Int.tdiv size 2)) (Int.tdiv size 2 + 1))

/-- `Universe::reset`: clear every in-grid cell to `EMPTY_CELL`. -/
def Universe.reset (u : Universe) : Universe :=
  (List.range u.width.toNat).foldl
    (fun v x =>
      (List.range v.height.toNat).foldl
        (fun vv y => { vv with cells := vv.cells.set (vv.get_index (x : Int) (y : Int)) EMPTY_CELL })
        v)
    u

/-- `Universe::new`.  The randomized cell fill draws from `js_sys::Math::random`
and is abstracted as an oracle `init`; the wind buffers and the remaining
fields are as in the source. -/
def Universe.new (width height : Int) (init : Nat → Cell) : Universe :=
  { width := width
    height := height
    cells := (List.range (width * height).toNat).map init
    undo_stack := []
    winds := (List.range (width * height).toNat).map (fun _ => zeroWind)
    burns := (List.range (width * height).toNat).map (fun _ => zeroWind)
    generation := 0 }

/-- The trivial material capability, used for concrete runs. -/
def idUpd : MaterialUpdate := fun _ _ _ v => v

/-- The state reached by one tick of the 1×1 demo universe. -/
def tickDemo1 : Universe :=
  { width := 1, height := 1
    cells := [EMPTY_CELL]
    undo_stack := []
    winds := [zeroWind]
    burns := [zeroWind]
    generation := 2 }

/-- An instrumented material capability: each visit appends its `x` coordinate
(plus one, base 10) into the `ra` register of cell 0, so the visit order
within the single row of a 2×1 grid is observable. -/
def instrU : MaterialUpdate := fun _ x _ v =>
  { v with cells := v.cells.set 0 ({ v.cells.getD 0 EMPTY_CELL with ra := ((v.cells.getD 0 EMPTY_CELL).ra * 10 + (x.toNat + 1)) % 256 }) }

def scanDemo : Universe :=
  { width := 2, height := 1
    cells := [EMPTY_CELL, EMPTY_CELL]
    undo_stack := []
    winds := [zeroWind, zeroWind]
    burns := [zeroWind, zeroWind]
    generation := 0 }

def sandCell : Cell := { species := Species.Sand, ra := 0, rb := 0, clock := 0 }

def windRight : Wind := { dx := 200, dy := 126, pressure := 0, density := 0 }

def windLeft : Wind := { dx := 0, dy := 126, pressure := 0, density := 0 }

def revisitDemo : Universe :=
  { width := 2, height := 1
    cells := [sandCell, EMPTY_CELL]
    undo_stack := []
    winds := [windRight, windRight]
    burns := [zeroWind, zeroWind]
    generation := 0 }

/-- The state after the sand grain of `revisitDemo` has been blown one cell to
the right: both touched positions carry the freshly-written clock 1. -/
def revisitAfter : Universe :=
  { width := 2, height := 1
    cells := [{ species := Species.Empty, ra := 0, rb := 0, clock := 1 },
              { species := Species.Sand, ra := 0, rb := 0, clock := 1 }]
    undo_stack := []
    winds := [windRight, windRight]
    burns := [zeroWind, zeroWind]
    generation := 0 }

def doubleDemo : Universe :=
  { width := 3, height := 1
    cells := [EMPTY_CELL, sandCell, sandCell]
    undo_stack := []
    winds := [windLeft, windLeft, windLeft]
    burns := [zeroWind, zeroWind, zeroWind]
    generation := 0 }

theorem getD_set_self {α : Type} (l : List α) (i : Nat) (a d : α) (h : i < l.length) :
    (l.set i a).getD i d = a := by
  induction l generalizing i with
  | nil => simp at h
  | cons b t ih =>
    cases i with
    | zero => rfl
    | succ n =>
      simp only [List.set, List.getD, List.getElem?_cons_succ]
      exact ih n (by simpa using h)

theorem getD_set_ne {α : Type} (l : List α) (i j : Nat) (a d : α) (h : i ≠ j) :
    (l.set i a).getD j d = l.getD j d := by
  induction l generalizing i j with
  | nil => rfl
  | cons b t ih =>
    cases i with
    | zero =>
      cases j with
      | zero => exact absurd rfl h
      | succ m => rfl
    | succ n =>
      cases j with
      | zero => rfl
      | succ m =>
        simp only [List.set, List.getD, List.getElem?_cons_succ]
        exact ih n m (by omega)

/-- In-grid coordinates give an index below `width * height`. -/
theorem get_index_lt (w h a b : Int) (ha : 0 ≤ a) (haw : a < w) (hb : 0 ≤ b) (hbh : b < h) :
    (a + b * w).toNat < (w * h).toNat := by
  have hw : 0 < w := by omega
  have hmul : b * w ≤ (h - 1) * w :=
    mul_le_mul_of_nonneg_right (by omega) (le_of_lt hw)
  have h1 : a + b * w < w * h := by nlinarith
  have h2 : 0 ≤ a + b * w := by nlinarith
  omega

/-- Flat indexing is injective on in-grid coordinates. -/
theorem get_index_inj (w a b c d : Int) (ha : 0 ≤ a) (haw : a < w)
    (hc : 0 ≤ c) (hcw : c < w) (hb : 0 ≤ b) (hd : 0 ≤ d)
    (heq : (a + b * w).toNat = (c + d * w).toNat) : a = c ∧ b = d := by
  have hw : 0 < w := by omega
  have h0 : 0 ≤ a + b * w := by nlinarith
  have h1 : 0 ≤ c + d * w := by nlinarith
  have h2 : a + b * w = c + d * w := by omega
  have hbd : b = d := by
    rcases lt_trichotomy b d with hlt | heq2 | hgt
    · exfalso
      have : (b + 1) * w ≤ d * w := mul_le_mul_of_nonneg_right (by omega) (le_of_lt hw)
      nlinarith
    · exact heq2
    · exfalso
      have : (d + 1) * w ≤ b * w := mul_le_mul_of_nonneg_right (by omega) (le_of_lt hw)
      nlinarith
  refine ⟨?_, hbd⟩
  subst hbd
  omega

/-- C3: an in-window `get` whose resolved coordinate lies off-grid returns the
synthetic `Wall` cell with zero registers and `clock` equal to the caller's
current generation.  (`get` returns only a `Cell` and takes the universe
unmutated, so no such cell is ever stored into the grid.) -/
theorem c3_get_offgrid_synthetic_wall (u : Universe) (x y dx dy : Int)
    (h1 : -1 ≤ dx) (h2 : dx ≤ 1) (h3 : -2 ≤ dy) (h4 : dy ≤ 2)
    (hout : x + dx < 0 ∨ x + dx > u.width - 1 ∨ y + dy < 0 ∨ y + dy > u.height - 1) :
    SandApi.get u x y dx dy =
      some { species := Species.Wall, ra := 0, rb := 0, clock := u.generation } := by
  unfold SandApi.get
  rw [if_neg (by omega), if_pos hout]

/-- C3 witness: `get` at offset (1,0) from (2,0) on a 3×3 grid resolves off-grid. -/
theorem c3_witness :
    (-1 : Int) ≤ 1 ∧
    SandApi.get demo3 2 0 1 0 =
      some { species := Species.Wall, ra := 0, rb := 0, clock := demo3.generation } :=
  ⟨by decide, c3_get_offgrid_synthetic_wall demo3 2 0 1 0 (by decide) (by decide)
    (by decide) (by decide) (by decide)⟩

/-- C4: an in-window `set` resolving off-grid is a silent no-op; resolving
in-grid it stores the given cell with its clock overridden to
`(generation + 1) % 256`, regardless of the caller-supplied clock. -/
theorem c4_set_semantics (u : Universe) (x y dx dy : Int) (v : Cell)
    (h1 : -1 ≤ dx) (h2 : dx ≤ 1) (h3 : -2 ≤ dy) (h4 : dy ≤ 2) :
    ((x + dx < 0 ∨ x + dx > u.width - 1 ∨ y + dy < 0 ∨ y + dy > u.height - 1) →
        SandApi.set u x y dx dy v = some u) ∧
    ((0 ≤ x + dx ∧ x + dx ≤ u.width - 1 ∧ 0 ≤ y + dy ∧ y + dy ≤ u.height - 1) →
        SandApi.set u x y dx dy v =
          some { u with cells := u.cells.set (u.get_index (x + dx) (y + dy)) ({ v with clock := (u.generation + 1) % 256 }) }) ∧
    (u.cells.length = (u.width * u.height).toNat →
      (0 ≤ x + dx ∧ x + dx ≤ u.width - 1 ∧ 0 ≤ y + dy ∧ y + dy ≤ u.height - 1) →
      ∀ u2, SandApi.set u x y dx dy v = some u2 →
        u2.get_cell (x + dx) (y + dy) = { v with clock := (u.generation + 1) % 256 }) := by
  refine ⟨?_, ?_, ?_⟩
  · intro hout
    unfold SandApi.set
    rw [if_neg (by omega), if_pos hout]
  · intro hin
    unfold SandApi.set
    rw [if_neg (by omega), if_neg (by omega)]
  · intro hwf hin u2 hset
    unfold SandApi.set at hset
    rw [if_neg (by omega), if_neg (by omega)] at hset
    cases hset
    unfold Universe.get_cell Universe.get_index
    simp only []
    apply getD_set_self
    rw [hwf]
    exact get_index_lt u.width u.height (x + dx) (y + dy) (by omega) (by omega)
      (by omega) (by omega)

/-- C4 witness: setting (0,0)+(1,1) on the 3×3 demo grid stores the cell with
clock forced to 1. -/
theorem c4_witness :
    demo3.cells.length = (demo3.width * demo3.height).toNat ∧
    ∀ u2, SandApi.set demo3 0 0 1 1 { species := Species.Sand, ra := 5, rb := 6, clock := 77 } =
        some u2 →
      u2.get_cell 1 1 = { species := Species.Sand, ra := 5, rb := 6, clock := 1 } :=
  ⟨by decide, fun u2 h =>
    (c4_set_semantics demo3 0 0 1 1 { species := Species.Sand, ra := 5, rb := 6, clock := 77 }
        (by decide) (by decide) (by decide) (by decide)).2.2 (by decide)
      (by decide) u2 h⟩

/-- C5: `set_fluid` writes only the write wind buffer (`burns`) at the flipped
index of its own coordinate and never touches `winds`; `get_fluid` reads only
`winds` at the flipped index, so a wind written by `set_fluid` is never
returned by `get_fluid` within the same tick. -/
theorem c5_fluid_buffers (u : Universe) (x y a b : Int) (w : Wind) :
    SandApi.get_fluid (SandApi.set_fluid u a b w) x y = SandApi.get_fluid u x y ∧
    (SandApi.set_fluid u x y w).winds = u.winds ∧
    (SandApi.set_fluid u x y w).burns =
      u.burns.set (u.get_index x (u.height - (1 + y))) w ∧
    SandApi.get_fluid u x y = u.winds.getD (u.get_index x (u.height - (1 + y))) zeroWind :=
  ⟨rfl, rfl, rfl, rfl⟩

/-- C9: `get` and `set` abort (return `none`) exactly when the offset is
outside the fixed window `dx ∈ [-1,1]`, `dy ∈ [-2,2]`; in particular
`get(2,0)` and `get(0,3)` abort while `get(1,2)` and `get(-1,-2)` succeed. -/
theorem c9_window_abort :
    (∀ (u : Universe) (x y dx dy : Int),
        SandApi.get u x y dx dy = none ↔ (dx > 1 ∨ dx < -1 ∨ dy > 2 ∨ dy < -2)) ∧
    (∀ (u : Universe) (x y dx dy : Int) (v : Cell),
        SandApi.set u x y dx dy v = none ↔ (dx > 1 ∨ dx < -1 ∨ dy > 2 ∨ dy < -2)) ∧
    SandApi.get demo3 0 0 2 0 = none ∧
    SandApi.get demo3 0 0 0 3 = none ∧
    (SandApi.get demo3 0 0 1 2).isSome = true ∧
    (SandApi.get demo3 0 0 (-1) (-2)).isSome = true := by
  refine ⟨?_, ?_, by decide, by decide, by decide, by decide⟩
  · intro u x y dx dy
    unfold SandApi.get
    split
    · simp only [true_iff]
      assumption
    · split <;> simp_all
  · intro u x y dx dy v
    unfold SandApi.set
    split
    · simp only [true_iff]
      assumption
    · split <;> simp_all

/-- C7: push-then-pop restores the cell buffer and removes the snapshot; the
stack never exceeds 50 entries; popping an empty stack is a no-op; and sixty
pushes of distinct grids retain exactly the 50 newest snapshots, newest
first. -/
theorem c7_undo_stack :
    (∀ u : Universe, u.push_undo.pop_undo.cells = u.cells ∧
        u.push_undo.pop_undo.undo_stack = u.undo_stack.take 49) ∧
    (∀ u : Universe, u.push_undo.undo_stack.length ≤ 50) ∧
    (∀ u : Universe, u.undo_stack = [] → u.pop_undo = u) ∧
    (pushDemo 60).map Universe.undo_stack =
      some ((List.range 50).map (fun k => [{ species := Species.Sand, ra := 60 - k, rb := 0, clock := 1 }])) := by
  refine ⟨?_, ?_, ?_, by decide⟩
  · intro u
    unfold Universe.push_undo Universe.pop_undo
    simp [List.take_succ_cons]
  · intro u
    unfold Universe.push_undo
    simp only [List.take_succ_cons, List.length_cons, List.length_take]
    omega
  · intro u h
    unfold Universe.pop_undo
    rw [h]

/-- C7 witness: popping the empty-stack demo universe changes nothing. -/
theorem c7_witness : demo1.undo_stack = [] ∧ demo1.pop_undo = demo1 :=
  ⟨rfl, c7_undo_stack.2.2.1 demo1 rfl⟩

/-- A fold preserves any invariant its step preserves. -/
theorem foldl_inv {α β : Type} (P : β → Prop) (f : β → α → β)
    (h : ∀ b a, P b → P (f b a)) : ∀ (l : List α) (b : β), P b → P (l.foldl f b) := by
  intro l
  induction l with
  | nil => exact fun b hb => hb
  | cons a t ih => exact fun b hb => ih _ (h b a hb)

theorem sameShape_refl (u : Universe) : sameShape u u :=
  ⟨rfl, rfl, rfl, rfl, rfl, rfl, rfl⟩

theorem sameShape_trans {u v w : Universe} (h1 : sameShape u v) (h2 : sameShape v w) :
    sameShape u w := by
  obtain ⟨a1, a2, a3, a4, a5, a6, a7⟩ := h1
  obtain ⟨b1, b2, b3, b4, b5, b6, b7⟩ := h2
  exact ⟨b1.trans a1, b2.trans a2, b3.trans a3, b4.trans a4, b5.trans a5, b6.trans a6, b7.trans a7⟩

theorem get_inWindow_isSome (u : Universe) (x y dx dy : Int)
    (h1 : -1 ≤ dx) (h2 : dx ≤ 1) (h3 : -2 ≤ dy) (h4 : dy ≤ 2) :
    ∃ c, SandApi.get u x y dx dy = some c := by
  unfold SandApi.get
  rw [if_neg (by omega)]
  split
  · exact ⟨_, rfl⟩
  · exact ⟨_, rfl⟩

theorem set_inWindow_strong (u : Universe) (x y dx dy : Int) (v : Cell)
    (h1 : -1 ≤ dx) (h2 : dx ≤ 1) (h3 : -2 ≤ dy) (h4 : dy ≤ 2) :
    ∃ u2, SandApi.set u x y dx dy v = some u2 ∧ sameShape u u2 := by
  unfold SandApi.set
  rw [if_neg (by omega)]
  split
  · exact ⟨u, rfl, sameShape_refl u⟩
  · exact ⟨_, rfl, ⟨rfl, rfl, rfl, rfl, rfl, rfl, by simp⟩⟩

theorem windDirX_bounds (wx t : Int) : -1 ≤ windDirX wx t ∧ windDirX wx t ≤ 1 := by
  unfold windDirX
  split_ifs <;> omega

theorem windDirY_bounds (wy t : Int) : -1 ≤ windDirY wy t ∧ windDirY wy t ≤ 1 := by
  unfold windDirY
  split_ifs <;> omega

theorem blow_wind_move_strong (cell : Cell) (u : Universe) (x y dx dy : Int)
    (hx1 : -1 ≤ dx) (hx2 : dx ≤ 1) (hy1 : -1 ≤ dy) (hy2 : dy ≤ 1) :
    ∃ v, blow_wind_move cell u x y dx dy = some v ∧ sameShape u v := by
  unfold blow_wind_move
  split
  · exact ⟨u, rfl, sameShape_refl u⟩
  obtain ⟨target, hget⟩ := get_inWindow_isSome u x y dx dy hx1 hx2 (by omega) (by omega)
  rw [hget]
  dsimp only
  by_cases ht : target.species = Species.Empty
  · rw [if_pos ht]
    obtain ⟨u1, hset1, hs1⟩ :=
      set_inWindow_strong u x y 0 0 EMPTY_CELL (by omega) (by omega) (by omega) (by omega)
    rw [hset1]
    dsimp only
    by_cases hdy : dy = -1
    · rw [if_pos hdy]
      obtain ⟨two, hget2⟩ := get_inWindow_isSome u1 x y dx (-2) hx1 hx2 (by omega) (by omega)
      rw [hget2]
      dsimp only
      split
      · obtain ⟨u2, hset2, hs2⟩ :=
          set_inWindow_strong u1 x y dx (-2) cell hx1 hx2 (by omega) (by omega)
        exact ⟨u2, hset2, sameShape_trans hs1 hs2⟩
      · obtain ⟨u2, hset2, hs2⟩ :=
          set_inWindow_strong u1 x y dx dy cell hx1 hx2 (by omega) (by omega)
        exact ⟨u2, hset2, sameShape_trans hs1 hs2⟩
    · rw [if_neg hdy]
      obtain ⟨u2, hset2, hs2⟩ :=
        set_inWindow_strong u1 x y dx dy cell hx1 hx2 (by omega) (by omega)
      exact ⟨u2, hset2, sameShape_trans hs1 hs2⟩
  · rw [if_neg ht]
    exact ⟨u, rfl, sameShape_refl u⟩

theorem blow_wind_strong (cell : Cell) (wind : Wind) (u : Universe) (x y : Int) :
    ∃ v, blow_wind cell wind u x y = some v ∧ sameShape u v := by
  unfold blow_wind
  split
  · exact ⟨u, rfl, sameShape_refl u⟩
  split
  · exact ⟨u, rfl, sameShape_refl u⟩
  obtain ⟨hx1, hx2⟩ := windDirX_bounds ((wind.dx : Int) - 126) (windThreshold cell.species)
  obtain ⟨hy1, hy2⟩ := windDirY_bounds ((wind.dy : Int) - 126) (windThreshold cell.species)
  exact blow_wind_move_strong cell u x y _ _ hx1 hx2 hy1 hy2

theorem runVisitsA_strong :
    ∀ (l : List (Int × Int)) (u : Universe), ∃ v, runVisitsA u l = some v ∧ sameShape u v := by
  intro l
  induction l with
  | nil => exact fun u => ⟨u, rfl, sameShape_refl u⟩
  | cons p rest ih =>
    intro u
    obtain ⟨v, hv, hs⟩ := blow_wind_strong (u.get_cell p.1 p.2) (u.get_wind p.1 p.2) u p.1 p.2
    obtain ⟨w, hw, hsw⟩ := ih v
    refine ⟨w, ?_, sameShape_trans hs hsw⟩
    unfold runVisitsA stepA
    rw [hv]
    exact hw

theorem idUpd_pres : updPreserves idUpd := fun _ _ _ _ => ⟨rfl, rfl, rfl, rfl⟩

theorem stepB_pres (upd : MaterialUpdate) (hp : updPreserves upd) (v : Universe) (sx y : Int) :
    (stepB upd v sx y).width = v.width ∧ (stepB upd v sx y).height = v.height ∧
    (stepB upd v sx y).generation = v.generation ∧ (stepB upd v sx y).winds = v.winds := by
  unfold stepB update_cell
  split
  · exact ⟨rfl, rfl, rfl, rfl⟩
  · exact hp (v.get_cell sx y) sx y _

theorem phaseB_pres (upd : MaterialUpdate) (hp : updPreserves upd) (u : Universe) :
    (phaseB upd u).width = u.width ∧ (phaseB upd u).height = u.height ∧
    (phaseB upd u).generation = u.generation ∧ (phaseB upd u).winds = u.winds := by
  unfold phaseB
  refine foldl_inv
    (fun v => v.width = u.width ∧ v.height = u.height ∧ v.generation = u.generation ∧ v.winds = u.winds)
    _ ?_ _ u ⟨rfl, rfl, rfl, rfl⟩
  intro b x hb
  refine foldl_inv
    (fun v => v.width = u.width ∧ v.height = u.height ∧ v.generation = u.generation ∧ v.winds = u.winds)
    _ ?_ _ b hb
  intro v y hv
  obtain ⟨h1, h2, h3, h4⟩ := hv
  obtain ⟨g1, g2, g3, g4⟩ := stepB_pres upd hp v _ _
  exact ⟨g1.trans h1, g2.trans h2, g3.trans h3, g4.trans h4⟩

/-- One tick always succeeds, advances the generation by exactly 2 (wrapping),
and preserves the dimensions and the read wind buffer. -/
theorem tick_strong (upd : MaterialUpdate) (hp : updPreserves upd) (u : Universe) :
    ∃ v, tick upd u = some v ∧ v.generation = (u.generation + 2) % 256 ∧
      v.width = u.width ∧ v.height = u.height ∧ v.winds = u.winds := by
  obtain ⟨ua, hA, hsA⟩ := runVisitsA_strong (phaseAVisits u.width u.height) u
  obtain ⟨w1, h1, winds1, _, _, g1, _⟩ := hsA
  unfold tick
  rw [hA]
  obtain ⟨pw, ph, pg, pwinds⟩ :=
    phaseB_pres upd hp { ua with generation := (ua.generation + 1) % 256 }
  refine ⟨_, rfl, ?_, ?_, ?_, ?_⟩
  · show ((phaseB upd _).generation + 1) % 256 = (u.generation + 2) % 256
    rw [pg]
    show ((ua.generation + 1) % 256 + 1) % 256 = (u.generation + 2) % 256
    rw [Nat.mod_add_mod, g1]
  · show (phaseB upd _).width = u.width
    rw [pw]
    exact w1
  · show (phaseB upd _).height = u.height
    rw [ph]
    exact h1
  · show (phaseB upd _).winds = u.winds
    rw [pwinds]
    exact winds1

theorem tickN_strong (upd : MaterialUpdate) (hp : updPreserves upd) :
    ∀ (n : Nat) (u : Universe), ∃ v, tickN upd n u = some v ∧
      v.width = u.width ∧ v.height = u.height ∧ v.winds = u.winds ∧
      (0 < n → v.generation = (u.generation + 2 * n) % 256) ∧ (n = 0 → v = u) := by
  intro n
  induction n with
  | zero => exact fun u => ⟨u, rfl, rfl, rfl, rfl, fun h => absurd h (by omega), fun _ => rfl⟩
  | succ m ih =>
    intro u
    obtain ⟨v, hv, hg, hw, hh, hwinds⟩ := tick_strong upd hp u
    obtain ⟨z, hz, zw, zh, zwinds, zgen, zzero⟩ := ih v
    refine ⟨z, ?_, zw.trans hw, zh.trans hh, zwinds.trans hwinds, ?_, by omega⟩
    · unfold tickN
      rw [hv]
      exact hz
    · intro _
      rcases Nat.eq_zero_or_pos m with hm | hm
      · subst hm
        rw [zzero rfl, hg]
      · rw [zgen hm, hg, Nat.mod_add_mod]
        congr 1
        omega

theorem map_const_replicate {α β : Type} (b : β) :
    ∀ l : List α, l.map (fun _ => b) = List.replicate l.length b := by
  intro l
  induction l with
  | nil => rfl
  | cons a t ih => simp [ih, List.replicate_succ]

/-- C6: a tick advances the generation by exactly 1 after each of its two
phases, hence by exactly 2 (wrapping mod 256) in total; starting at
generation 0 one tick yields 2, and 128 ticks return the generation to its
starting value mod 256. -/
theorem c6_generation_advance :
    (∀ upd, updPreserves upd → ∀ u, ∃ u2, tick upd u = some u2 ∧
        u2.generation = (u.generation + 2) % 256) ∧
    (∀ upd, updPreserves upd → ∀ u, ∃ u2, tickN upd 128 u = some u2 ∧
        u2.generation = u.generation % 256) ∧
    (tick idUpd demo1).map Universe.generation = some 2 ∧
    (tickN idUpd 128 demo1).map Universe.generation = some 0 := by
  refine ⟨?_, ?_, by decide, by decide⟩
  · intro upd hp u
    obtain ⟨v, hv, hg, _⟩ := tick_strong upd hp u
    exact ⟨v, hv, hg⟩
  · intro upd hp u
    obtain ⟨v, hv, _, _, _, hg, _⟩ := tickN_strong upd hp 128 u
    refine ⟨v, hv, ?_⟩
    have := hg (by omega)
    omega

/-- C6 witness: the 1×1 demo universe at generation 0. -/
theorem c6_witness :
    updPreserves idUpd ∧ (tick idUpd demo1).map Universe.generation = some 2 := by
  refine ⟨idUpd_pres, ?_⟩
  obtain ⟨u2, h1, h2⟩ := c6_generation_advance.1 idUpd idUpd_pres demo1
  rw [h1]
  simp [h2]
  rfl

theorem paintStep_winds (x y radius : Int) (m : Species) (rnd : Int → Int → Nat)
    (v : Universe) (dx dy : Int) : (paintStep x y radius m rnd v dx dy).winds = v.winds := by
  unfold paintStep
  split_ifs <;> rfl

/-- C10: the read wind buffer is written by no engine operation after
construction — `tick` writes only cells and `burns`, `set_fluid` writes only
`burns`, and `paint`, `reset` and the undo operations leave the wind buffers
alone; at construction both wind buffers are all-zero. -/
theorem c10_read_winds_immutable :
    (∀ (u : Universe) (x y : Int) (w : Wind), (SandApi.set_fluid u x y w).winds = u.winds) ∧
    (∀ upd, updPreserves upd → ∀ u u2, tick upd u = some u2 → u2.winds = u.winds) ∧
    (∀ (u : Universe) (x y size : Int) (m : Species) (rnd : Int → Int → Nat),
        (u.paint x y size m rnd).winds = u.winds) ∧
    (∀ u : Universe, u.reset.winds = u.winds) ∧
    (∀ u : Universe, u.push_undo.winds = u.winds ∧ u.pop_undo.winds = u.winds ∧
        u.flush_undos.winds = u.winds) ∧
    (∀ (w h : Int) (init : Nat → Cell),
        (Universe.new w h init).winds = List.replicate (w * h).toNat zeroWind ∧
        (Universe.new w h init).burns = List.replicate (w * h).toNat zeroWind) := by
  refine ⟨fun u x y w => rfl, ?_, ?_, ?_, ?_, ?_⟩
  · intro upd hp u u2 h
    obtain ⟨v, hv, _, _, _, hwinds⟩ := tick_strong upd hp u
    rw [h] at hv
    cases hv
    exact hwinds
  · intro u x y size m rnd
    unfold Universe.paint paintRows
    refine foldl_inv (fun v => v.winds = u.winds) _ ?_ _ u rfl
    intro b dx hb
    unfold paintCols
    refine foldl_inv (fun v => v.winds = u.winds) _ ?_ _ b hb
    intro v dy hv
    rw [paintStep_winds]
    exact hv
  · intro u
    unfold Universe.reset
    refine foldl_inv (fun v => v.winds = u.winds) _ ?_ _ u rfl
    intro b x hb
    refine foldl_inv (fun v => v.winds = u.winds) _ ?_ _ b hb
    intro v y hv
    exact hv
  · intro u
    refine ⟨rfl, ?_, rfl⟩
    unfold Universe.pop_undo
    split <;> rfl
  · intro w h init
    constructor
    · show (List.range (w * h).toNat).map (fun _ => zeroWind) = _
      rw [map_const_replicate, List.length_range]
    · show (List.range (w * h).toNat).map (fun _ => zeroWind) = _
      rw [map_const_replicate, List.length_range]

/-- C10 witness: one tick of the demo universe leaves `winds` untouched. -/
theorem c10_witness :
    updPreserves idUpd ∧ tick idUpd demo1 = some tickDemo1 ∧ tickDemo1.winds = demo1.winds :=
  ⟨idUpd_pres, by decide,
    c10_read_winds_immutable.2.1 idUpd idUpd_pres demo1 tickDemo1 (by decide)⟩

theorem foldl_flatMap {α β γ : Type} (f : γ → List α) (step : β → α → β) :
    ∀ (l : List γ) (b : β),
      (l.flatMap f).foldl step b = l.foldl (fun acc a => (f a).foldl step acc) b := by
  intro l
  induction l with
  | nil => intro b; rfl
  | cons a t ih =>
    intro b
    rw [List.flatMap_cons, List.foldl_append, List.foldl_cons]
    exact ih _

theorem foldl_congr_inv {α β : Type} (P : β → Prop) (f g : β → α → β)
    (hfg : ∀ b a, P b → f b a = g b a) (hP : ∀ b a, P b → P (f b a)) :
    ∀ (l : List α) (b : β), P b → l.foldl f b = l.foldl g b := by
  intro l
  induction l with
  | nil => intro b _; rfl
  | cons a t ih =>
    intro b hb
    rw [List.foldl_cons, List.foldl_cons, ← hfg b a hb]
    exact ih (f b a) (hP b a hb)

/-- Phase B is the fold of `stepB` over the precomputed visit list, provided
the material capability honours the engine contract (it cannot change the
dimensions or the generation mid-scan). -/
theorem phaseB_visits_eq (upd : MaterialUpdate) (hp : updPreserves upd) (u : Universe) :
    phaseB upd u =
      (phaseBVisits u.width u.height u.generation).foldl (fun v p => stepB upd v p.1 p.2) u := by
  unfold phaseBVisits xOrder
  rw [foldl_flatMap, List.foldl_map]
  simp only [List.foldl_map]
  unfold phaseB
  refine foldl_congr_inv
    (fun v => v.width = u.width ∧ v.height = u.height ∧ v.generation = u.generation)
    _ _ ?_ ?_ _ u ⟨rfl, rfl, rfl⟩
  · intro b x hb
    obtain ⟨h1, h2, h3⟩ := hb
    simp only [h1, h2, h3]
  · intro b x hb
    refine foldl_inv
      (fun v => v.width = u.width ∧ v.height = u.height ∧ v.generation = u.generation)
      _ ?_ _ b hb
    intro v y hv
    obtain ⟨g1, g2, g3, _⟩ := stepB_pres upd hp v _ _
    exact ⟨g1.trans hv.1, g2.trans hv.2.1, g3.trans hv.2.2⟩

/-- C2 (amended): phase B scans with `x` outer; within each row the
x-visitation is monotone — ascending exactly when the phase-B generation
(tick start + 1) is odd, i.e. when the tick began on an even generation, and
descending when it began on an odd one.  Because a tick advances the
generation by exactly 2, consecutive ticks observe the same direction. -/
theorem c2_scan_order_amended :
    (∀ (w : Int) (g : Nat), g % 2 = 1 →
        xOrder w g = (List.range w.toNat).map (fun n => (n : Int))) ∧
    (∀ (w : Int) (g : Nat), g % 2 = 0 →
        xOrder w g = (List.range w.toNat).map (fun n => w - 1 - (n : Int))) ∧
    (∀ upd, updPreserves upd → ∀ u : Universe,
        phaseB upd u =
          (phaseBVisits u.width u.height u.generation).foldl (fun v p => stepB upd v p.1 p.2) u) ∧
    (∀ g : Nat, ((g + 1) % 256) % 2 = 1 ↔ g % 2 = 0) ∧
    (∀ upd, updPreserves upd → ∀ u u2, tick upd u = some u2 →
        u2.generation % 2 = u.generation % 2) := by
  refine ⟨?_, ?_, fun upd hp u => phaseB_visits_eq upd hp u, fun g => by omega, ?_⟩
  · intro w g hg
    unfold xOrder
    simp [hg]
  · intro w g hg
    unfold xOrder
    simp only [hg]
    refine List.map_congr_left ?_
    intro n _
    norm_num
    omega
  · intro upd hp u u2 h
    obtain ⟨v, hv, hg, _⟩ := tick_strong upd hp u
    rw [h] at hv
    cases hv
    omega

/-- C2 counterexample: on a 2×1 grid starting at generation 0, the first tick
observes ascending x-visitation (register trace 12, i.e. x = 0 then x = 1) and
the second (consecutive) tick observes ascending again (trace 188 = 1212 mod
256), not the descending trace 197 = 1221 mod 256 the claim's "ascending then
descending on consecutive ticks" requires; both ticks' phase-B visit lists
equal the ascending [(0,0),(1,0)]. -/
theorem c2_counterexample :
    (tick instrU scanDemo).map (fun v => (v.cells.getD 0 EMPTY_CELL).ra) = some 12 ∧
    ((tick instrU scanDemo).bind (tick instrU)).map (fun v => (v.cells.getD 0 EMPTY_CELL).ra) =
      some 188 ∧
    phaseBVisits scanDemo.width scanDemo.height ((scanDemo.generation + 1) % 256) =
      [((0 : Int), (0 : Int)), (1, 0)] ∧
    (tick instrU scanDemo).map
        (fun v => phaseBVisits v.width v.height ((v.generation + 1) % 256)) =
      some [((0 : Int), (0 : Int)), (1, 0)] ∧
    (188 : Nat) ≠ 197 ∧
    [((0 : Int), (0 : Int)), (1, 0)] ≠ [((1 : Int), (0 : Int)), (0, 0)] :=
  ⟨by decide, by decide, by decide, by decide, by decide, by decide⟩

/-- C2 witness: ascending x-order at an odd phase-B generation, width 3. -/
theorem c2_witness :
    (1 : Nat) % 2 = 1 ∧ xOrder 3 1 = (List.range (3 : Int).toNat).map (fun n => (n : Int)) :=
  ⟨rfl, c2_scan_order_amended.1 3 1 rfl⟩

/-- C1 (amended): when a cell's clock minus the current generation is 1 under
wrapping 8-bit subtraction, `blow_wind` and `update_cell` return without
mutating any state, so a cell freshly written this phase is never moved again
within the phase: on the 2×1 revisit grid the grain moves exactly once and
the visit to its destination changes nothing.  (A grid position, by contrast,
can be mutated twice in one phase — see the C1 counterexample.) -/
theorem c1_clock_guard_amended :
    (∀ (cell : Cell) (wind : Wind) (u : Universe) (x y : Int),
        wsub cell.clock u.generation = 1 → blow_wind cell wind u x y = some u) ∧
    (∀ (upd : MaterialUpdate) (cell : Cell) (u : Universe) (x y : Int),
        wsub cell.clock u.generation = 1 → update_cell upd cell u x y = u) ∧
    (runVisitsA revisitDemo [((0 : Int), (0 : Int))] = some revisitAfter ∧
     stepA revisitAfter 1 0 = some revisitAfter ∧
     runVisitsA revisitDemo (phaseAVisits 2 1) = some revisitAfter) := by
  refine ⟨?_, ?_, by decide, by decide, by decide⟩
  · intro cell wind u x y h
    unfold blow_wind
    rw [if_pos h]
  · intro upd cell u x y h
    unfold update_cell
    rw [if_pos h]

/-- C1 witness: the guard fires for a cell stamped `clock = 1` at generation 0. -/
theorem c1_witness :
    wsub 1 demo1.generation = 1 ∧
    blow_wind { species := Species.Sand, ra := 0, rb := 0, clock := 1 } zeroWind demo1 0 0 =
      some demo1 :=
  ⟨by decide,
    c1_clock_guard_amended.1 { species := Species.Sand, ra := 0, rb := 0, clock := 1 }
      zeroWind demo1 0 0 (by decide)⟩

/-- C1 counterexample: on a 3×1 grid with two sand grains under leftward wind,
the grid position (1,0) is mutated twice within the single wind-transport
phase — first cleared when its own grain moves left, then overwritten when
the grain from (2,0) moves into it — so "each cell is mutated by the engine
at most once per phase" fails for grid positions. -/
theorem c1_counterexample :
    phaseAVisits 3 1 = [((0 : Int), (0 : Int)), (1, 0), (2, 0)] ∧
    doubleDemo.get_cell 1 0 = { species := Species.Sand, ra := 0, rb := 0, clock := 0 } ∧
    (runVisitsA doubleDemo [((0 : Int), (0 : Int)), (1, 0)]).map (fun v => v.get_cell 1 0) =
      some { species := Species.Empty, ra := 0, rb := 0, clock := 1 } ∧
    (runVisitsA doubleDemo (phaseAVisits 3 1)).map (fun v => v.get_cell 1 0) =
      some { species := Species.Sand, ra := 0, rb := 0, clock := 1 } ∧
    ({ species := Species.Empty, ra := 0, rb := 0, clock := 1 } : Cell) ≠
      { species := Species.Sand, ra := 0, rb := 0, clock := 0 } ∧
    ({ species := Species.Sand, ra := 0, rb := 0, clock := 1 } : Cell) ≠
      { species := Species.Empty, ra := 0, rb := 0, clock := 1 } :=
  ⟨by decide, by decide, by decide, by decide, by decide, by decide⟩

theorem intRange_mem (a b z : Int) : z ∈ intRange a b ↔ a ≤ z ∧ z < b := by
  unfold intRange
  simp only [List.mem_map, List.mem_range]
  constructor
  · rintro ⟨k, hk, rfl⟩
    omega
  · rintro ⟨h1, h2⟩
    exact ⟨(z - a).toNat, by omega, by omega⟩

theorem intRange_nodup (a b : Int) : (intRange a b).Nodup := by
  unfold intRange
  exact (List.nodup_range _).map (fun p q h => by omega)

theorem sq_bound (a r : Int) (hr : 0 ≤ r) (h : a * a < r * r) : -r ≤ a ∧ a ≤ r := by
  constructor
  · by_contra hc
    push_neg at hc
    nlinarith
  · by_contra hc
    push_neg at hc
    nlinarith

theorem paintCols_nil (x y r : Int) (m : Species) (rnd : Int → Int → Nat) (dx : Int)
    (v : Universe) : paintCols x y r m rnd dx v [] = v := rfl

theorem paintCols_cons (x y r : Int) (m : Species) (rnd : Int → Int → Nat) (dx : Int)
    (v : Universe) (dy : Int) (rest : List Int) :
    paintCols x y r m rnd dx v (dy :: rest) =
      paintCols x y r m rnd dx (paintStep x y r m rnd v dx dy) rest := rfl

theorem paintRows_cons (x y r : Int) (m : Species) (rnd : Int → Int → Nat)
    (v : Universe) (dx : Int) (rest : List Int) :
    paintRows x y r m rnd v (dx :: rest) =
      paintRows x y r m rnd (paintCols x y r m rnd dx v (intRange (-r) (r + 1))) rest := rfl

theorem paintStep_shape (x y r : Int) (m : Species) (rnd : Int → Int → Nat)
    (v : Universe) (dx dy : Int) : sameShape v (paintStep x y r m rnd v dx dy) := by
  unfold paintStep
  split_ifs <;> first
    | exact sameShape_refl v
    | exact ⟨rfl, rfl, rfl, rfl, rfl, rfl, by simp⟩

theorem paintStep_other (u : Universe) (x y r : Int) (m : Species) (rnd : Int → Int → Nat)
    (px py : Int) (hpx : 0 ≤ px) (hpxw : px < u.width) (hpy : 0 ≤ py) (hpyh : py < u.height)
    (v : Universe) (hs : sameShape u v) (dx dy : Int)
    (hne : ¬(x + dx = px ∧ y + dy = py)) :
    (paintStep x y r m rnd v dx dy).get_cell px py = v.get_cell px py := by
  obtain ⟨hw, hh, _, _, _, _, _⟩ := hs
  unfold paintStep
  split_ifs with h1 h2 h3
  · rfl
  · rfl
  · unfold Universe.get_cell Universe.get_index
    dsimp only
    apply getD_set_ne
    intro hidx
    push_neg at h2
    obtain ⟨e1, e2⟩ := get_index_inj v.width (x + dx) (y + dy) px py (by omega) (by omega)
      (by omega) (by omega) (by omega) (by omega) hidx
    exact hne ⟨e1, e2⟩
  · rfl

theorem paintStep_at (u : Universe) (x y r : Int) (m : Species) (rnd : Int → Int → Nat)
    (px py : Int) (hwf : u.cells.length = (u.width * u.height).toNat)
    (hpx : 0 ≤ px) (hpxw : px < u.width) (hpy : 0 ≤ py) (hpyh : py < u.height)
    (v : Universe) (hs : sameShape u v) (hcell : v.get_cell px py = u.get_cell px py)
    (dx dy : Int) (hdx : x + dx = px) (hdy : y + dy = py) :
    (paintStep x y r m rnd v dx dy).get_cell px py =
      if ¬(dx * dx + dy * dy > r * r - 1) ∧
         ((u.get_cell px py).species = Species.Empty ∨ m = Species.Empty)
      then { species := m, ra := paintRa u.generation (rnd dx dy), rb := 0, clock := u.generation }
      else u.get_cell px py := by
  obtain ⟨hw, hh, _, _, _, hg, hlen⟩ := hs
  unfold paintStep
  rw [hdx, hdy]
  by_cases hdisc : dx * dx + dy * dy > r * r - 1
  · rw [if_pos hdisc, if_neg (by simp [hdisc])]
    exact hcell
  · rw [if_neg hdisc, if_neg (by omega)]
    rw [hcell]
    by_cases hemp : (u.get_cell px py).species = Species.Empty ∨ m = Species.Empty
    · rw [if_pos hemp, if_pos ⟨hdisc, hemp⟩]
      unfold Universe.get_cell Universe.get_index
      dsimp only
      rw [hg]
      apply getD_set_self
      rw [hlen, hwf]
      rw [hw]
      exact get_index_lt u.width u.height px py hpx hpxw hpy hpyh
    · rw [if_neg hemp, if_neg (fun h => hemp h.2)]
      exact hcell

theorem paintCols_other_col (u : Universe) (x y r : Int) (m : Species) (rnd : Int → Int → Nat)
    (px py : Int) (hpx : 0 ≤ px) (hpxw : px < u.width) (hpy : 0 ≤ py) (hpyh : py < u.height)
    (dx : Int) (hdxne : x + dx ≠ px) :
    ∀ (ds : List Int) (v : Universe), sameShape u v →
      (paintCols x y r m rnd dx v ds).get_cell px py = v.get_cell px py ∧
      sameShape u (paintCols x y r m rnd dx v ds) := by
  intro ds
  induction ds with
  | nil => exact fun v hs => ⟨rfl, hs⟩
  | cons dy rest ih =>
    intro v hs
    have hshape : sameShape u (paintStep x y r m rnd v dx dy) :=
      sameShape_trans hs (paintStep_shape x y r m rnd v dx dy)
    have hcell : (paintStep x y r m rnd v dx dy).get_cell px py = v.get_cell px py :=
      paintStep_other u x y r m rnd px py hpx hpxw hpy hpyh v hs dx dy (fun h => hdxne h.1)
    obtain ⟨e1, e2⟩ := ih (paintStep x y r m rnd v dx dy) hshape
    rw [paintCols_cons]
    exact ⟨e1.trans hcell, e2⟩

theorem paintCols_no_hit (u : Universe) (x y r : Int) (m : Species) (rnd : Int → Int → Nat)
    (px py : Int) (hpx : 0 ≤ px) (hpxw : px < u.width) (hpy : 0 ≤ py) (hpyh : py < u.height)
    (dx : Int) :
    ∀ (ds : List Int), (∀ dy2 ∈ ds, y + dy2 ≠ py) → ∀ v : Universe, sameShape u v →
      (paintCols x y r m rnd dx v ds).get_cell px py = v.get_cell px py ∧
      sameShape u (paintCols x y r m rnd dx v ds) := by
  intro ds
  induction ds with
  | nil => exact fun _ v hs => ⟨rfl, hs⟩
  | cons dy rest ih =>
    intro hall v hs
    have hshape : sameShape u (paintStep x y r m rnd v dx dy) :=
      sameShape_trans hs (paintStep_shape x y r m rnd v dx dy)
    have hcell : (paintStep x y r m rnd v dx dy).get_cell px py = v.get_cell px py :=
      paintStep_other u x y r m rnd px py hpx hpxw hpy hpyh v hs dx dy
        (fun h => hall dy (List.mem_cons_self dy rest) h.2)
    obtain ⟨e1, e2⟩ :=
      ih (fun dy2 h2 => hall dy2 (List.mem_cons_of_mem dy h2)) (paintStep x y r m rnd v dx dy) hshape
    rw [paintCols_cons]
    exact ⟨e1.trans hcell, e2⟩

theorem paintCols_char (u : Universe) (x y r : Int) (m : Species) (rnd : Int → Int → Nat)
    (px py : Int) (hwf : u.cells.length = (u.width * u.height).toNat)
    (hpx : 0 ≤ px) (hpxw : px < u.width) (hpy : 0 ≤ py) (hpyh : py < u.height)
    (dx : Int) (hdx : x + dx = px) :
    ∀ (ds : List Int), ds.Nodup → ∀ v : Universe, sameShape u v →
      v.get_cell px py = u.get_cell px py →
      (paintCols x y r m rnd dx v ds).get_cell px py =
        (if (py - y) ∈ ds ∧ ¬(dx * dx + (py - y) * (py - y) > r * r - 1) ∧
            ((u.get_cell px py).species = Species.Empty ∨ m = Species.Empty)
         then { species := m, ra := paintRa u.generation (rnd dx (py - y)), rb := 0, clock := u.generation }
         else u.get_cell px py) ∧
      sameShape u (paintCols x y r m rnd dx v ds) := by
  intro ds
  induction ds with
  | nil =>
    intro _ v hs hcell
    refine ⟨?_, hs⟩
    rw [paintCols_nil, if_neg (fun h => by simp at h)]
    exact hcell
  | cons dy rest ih =>
    intro hnd v hs hcell
    rw [paintCols_cons]
    by_cases hdy : y + dy = py
    · have hdyeq : py - y = dy := by omega
      have hstep := paintStep_at u x y r m rnd px py hwf hpx hpxw hpy hpyh v hs hcell dx dy hdx hdy
      have hshape : sameShape u (paintStep x y r m rnd v dx dy) :=
        sameShape_trans hs (paintStep_shape x y r m rnd v dx dy)
      have hrest_none : ∀ dy2 ∈ rest, y + dy2 ≠ py := by
        intro dy2 hmem
        have hne : dy2 ≠ dy := by
          intro h
          exact (List.nodup_cons.mp hnd).1 (h ▸ hmem)
        omega
      obtain ⟨hfin, hfinshape⟩ :=
        paintCols_no_hit u x y r m rnd px py hpx hpxw hpy hpyh dx rest hrest_none
          (paintStep x y r m rnd v dx dy) hshape
      refine ⟨?_, hfinshape⟩
      rw [hfin, hstep, hdyeq]
      have hmem : dy ∈ dy :: rest := List.mem_cons_self dy rest
      simp only [hmem, true_and]
    · have hne : ¬(x + dx = px ∧ y + dy = py) := fun h => hdy h.2
      have hstep := paintStep_other u x y r m rnd px py hpx hpxw hpy hpyh v hs dx dy hne
      have hshape : sameShape u (paintStep x y r m rnd v dx dy) :=
        sameShape_trans hs (paintStep_shape x y r m rnd v dx dy)
      obtain ⟨e1, e2⟩ := ih (List.nodup_cons.mp hnd).2 (paintStep x y r m rnd v dx dy) hshape
        (hstep.trans hcell)
      refine ⟨?_, e2⟩
      rw [e1]
      have hnmem : py - y ≠ dy := by omega
      simp only [List.mem_cons, hnmem, false_or]

theorem paintRows_no_hit (u : Universe) (x y r : Int) (m : Species) (rnd : Int → Int → Nat)
    (px py : Int) (hpx : 0 ≤ px) (hpxw : px < u.width) (hpy : 0 ≤ py) (hpyh : py < u.height) :
    ∀ (ds : List Int), (∀ dx2 ∈ ds, x + dx2 ≠ px) → ∀ v : Universe, sameShape u v →
      (paintRows x y r m rnd v ds).get_cell px py = v.get_cell px py ∧
      sameShape u (paintRows x y r m rnd v ds) := by
  intro ds
  induction ds with
  | nil => exact fun _ v hs => ⟨rfl, hs⟩
  | cons dx rest ih =>
    intro hall v hs
    obtain ⟨c1, c2⟩ :=
      paintCols_other_col u x y r m rnd px py hpx hpxw hpy hpyh dx
        (hall dx (List.mem_cons_self dx rest)) (intRange (-r) (r + 1)) v hs
    obtain ⟨e1, e2⟩ :=
      ih (fun dx2 h2 => hall dx2 (List.mem_cons_of_mem dx h2))
        (paintCols x y r m rnd dx v (intRange (-r) (r + 1))) c2
    rw [paintRows_cons]
    exact ⟨e1.trans c1, e2⟩

theorem paintRows_char (u : Universe) (x y r : Int) (m : Species) (rnd : Int → Int → Nat)
    (px py : Int) (hwf : u.cells.length = (u.width * u.height).toNat)
    (hpx : 0 ≤ px) (hpxw : px < u.width) (hpy : 0 ≤ py) (hpyh : py < u.height) :
    ∀ (ds : List Int), ds.Nodup → ∀ v : Universe, sameShape u v →
      v.get_cell px py = u.get_cell px py →
      (paintRows x y r m rnd v ds).get_cell px py =
        (if (px - x) ∈ ds ∧ (py - y) ∈ intRange (-r) (r + 1) ∧
            ¬((px - x) * (px - x) + (py - y) * (py - y) > r * r - 1) ∧
            ((u.get_cell px py).species = Species.Empty ∨ m = Species.Empty)
         then { species := m, ra := paintRa u.generation (rnd (px - x) (py - y)), rb := 0, clock := u.generation }
         else u.get_cell px py) ∧
      sameShape u (paintRows x y r m rnd v ds) := by
  intro ds
  induction ds with
  | nil =>
    intro _ v hs hcell
    refine ⟨?_, hs⟩
    rw [if_neg (fun h => by simp at h)]
    exact hcell
  | cons dx rest ih =>
    intro hnd v hs hcell
    rw [paintRows_cons]
    by_cases hdx : x + dx = px
    · have hdxeq : px - x = dx := by omega
      obtain ⟨c1, c2⟩ :=
        paintCols_char u x y r m rnd px py hwf hpx hpxw hpy hpyh dx hdx
          (intRange (-r) (r + 1)) (intRange_nodup _ _) v hs hcell
      have hrest_none : ∀ dx2 ∈ rest, x + dx2 ≠ px := by
        intro dx2 hmem
        have hne : dx2 ≠ dx := by
          intro h
          exact (List.nodup_cons.mp hnd).1 (h ▸ hmem)
        omega
      obtain ⟨e1, e2⟩ :=
        paintRows_no_hit u x y r m rnd px py hpx hpxw hpy hpyh rest hrest_none
          (paintCols x y r m rnd dx v (intRange (-r) (r + 1))) c2
      refine ⟨?_, e2⟩
      rw [e1, c1, hdxeq]
      have hmem : dx ∈ dx :: rest := List.mem_cons_self dx rest
      simp only [hmem, true_and]
    · have hne := hdx
      obtain ⟨c1, c2⟩ :=
        paintCols_other_col u x y r m rnd px py hpx hpxw hpy hpyh dx hne
          (intRange (-r) (r + 1)) v hs
      obtain ⟨e1, e2⟩ := ih (List.nodup_cons.mp hnd).2
        (paintCols x y r m rnd dx v (intRange (-r) (r + 1))) c2 (c1.trans hcell)
      refine ⟨?_, e2⟩
      rw [e1]
      have hnmem : px - x ≠ dx := by omega
      simp only [List.mem_cons, hnmem, false_or]

/-- C8: for a nonnegative diameter, `paint` writes exactly the in-grid cells
at offsets with `dx*dx + dy*dy < radius*radius` (radius = size/2, truncated)
whose current species is `Empty` or where the painted material is `Empty`;
each written cell has the requested species, `rb = 0`, and `clock` equal to
the current generation; every other cell — outside the disc or off-grid —
is untouched, and the cell count is unchanged. -/
theorem c8_paint_disc (u : Universe) (x y size : Int) (m : Species) (rnd : Int → Int → Nat)
    (px py : Int) (hsize : 0 ≤ size) (hwf : u.cells.length = (u.width * u.height).toNat)
    (hpx : 0 ≤ px) (hpxw : px < u.width) (hpy : 0 ≤ py) (hpyh : py < u.height) :
    (u.paint x y size m rnd).cells.length = u.cells.length ∧
    (u.paint x y size m rnd).get_cell px py =
      (if (px - x) * (px - x) + (py - y) * (py - y) < Int.tdiv size 2 * Int.tdiv size 2 ∧
          ((u.get_cell px py).species = Species.Empty ∨ m = Species.Empty)
       then { species := m, ra := paintRa u.generation (rnd (px - x) (py - y)), rb := 0, clock := u.generation }
       else u.get_cell px py) := by
  have hr : 0 ≤ Int.tdiv size 2 := Int.tdiv_nonneg hsize (by norm_num)
  obtain ⟨hchar, hshape⟩ :=
    paintRows_char u x y (Int.tdiv size 2) m rnd px py hwf hpx hpxw hpy hpyh
      (intRange (-(Int.tdiv size 2)) (Int.tdiv size 2 + 1)) (intRange_nodup _ _) u
      (sameShape_refl u) rfl
  have hpaint : u.paint x y size m rnd =
      paintRows x y (Int.tdiv size 2) m rnd u
        (intRange (-(Int.tdiv size 2)) (Int.tdiv size 2 + 1)) := rfl
  rw [hpaint]
  refine ⟨hshape.2.2.2.2.2.2, ?_⟩
  rw [hchar]
  have hiff : ((px - x) ∈ intRange (-(Int.tdiv size 2)) (Int.tdiv size 2 + 1) ∧
      (py - y) ∈ intRange (-(Int.tdiv size 2)) (Int.tdiv size 2 + 1) ∧
      ¬((px - x) * (px - x) + (py - y) * (py - y) > Int.tdiv size 2 * Int.tdiv size 2 - 1) ∧
      ((u.get_cell px py).species = Species.Empty ∨ m = Species.Empty)) ↔
      ((px - x) * (px - x) + (py - y) * (py - y) < Int.tdiv size 2 * Int.tdiv size 2 ∧
      ((u.get_cell px py).species = Species.Empty ∨ m = Species.Empty)) := by
    constructor
    · rintro ⟨_, _, hd, he⟩
      exact ⟨by omega, he⟩
    · rintro ⟨hd, he⟩
      have h1 := sq_bound (px - x) (Int.tdiv size 2) hr (by nlinarith [mul_self_nonneg (py - y)])
      have h2 := sq_bound (py - y) (Int.tdiv size 2) hr (by nlinarith [mul_self_nonneg (px - x)])
      refine ⟨(intRange_mem _ _ _).mpr (by omega), (intRange_mem _ _ _).mpr (by omega), by omega, he⟩
  rw [if_congr hiff rfl rfl]

/-- C8 witness: painting diameter 4 sand at the center of the 3×3 demo grid,
observed at cell (2,1): offset (1,0) lies strictly inside radius 2. -/
theorem c8_witness :
    (0 : Int) ≤ 4 ∧ demo3.cells.length = (demo3.width * demo3.height).toNat ∧
    ((demo3.paint 1 1 4 Species.Sand (fun _ _ => 0)).cells.length = demo3.cells.length ∧
     (demo3.paint 1 1 4 Species.Sand (fun _ _ => 0)).get_cell 2 1 =
       (if ((2 : Int) - 1) * ((2 : Int) - 1) + ((1 : Int) - 1) * ((1 : Int) - 1) <
            Int.tdiv 4 2 * Int.tdiv 4 2 ∧
           ((demo3.get_cell 2 1).species = Species.Empty ∨ Species.Sand = Species.Empty)
        then { species := Species.Sand, ra := paintRa demo3.generation ((fun _ _ => 0) ((2 : Int) - 1) ((1 : Int) - 1)), rb := 0, clock := demo3.generation }
        else demo3.get_cell 2 1)) :=
  ⟨by decide, by decide,
    c8_paint_disc demo3 1 1 4 Species.Sand (fun _ _ => 0) 2 1 (by decide) (by decide)
      (by decide) (by decide) (by decide) (by decide)⟩

